import Mathlib

/-! # libclang-vim: type deduction, compilation flags and qualified names

A shallow embedding of `src/lib/libclang-vim/deduction.cpp`.

* `std::string` is a Lean `String`, read through its list of characters
  (one list element per `char`).
* `std::string::npos` is `none`; a position or count that may be `npos` is an
  `Option Nat`.
* A thrown C++ exception or a loop that exceeds its bound is an
  `Except.error`.
* libclang handles (`CXCursor`, `CXType`) are immutable values carrying what
  the queried accessors return.
-/

namespace LibclangVim

/-! ## `std::string` operations used by the source -/

/-- How a call can fail to return a value. -/
inductive Failure where
  /-- `std::out_of_range`, thrown by `std::string::substr`. -/
  | out_of_range
  /-- The loop bound of the model was exceeded. -/
  | diverged
deriving DecidableEq, Repr

/-- `std::isalnum` in the "C" locale: ASCII letters and digits. -/
def isalnum (c : Char) : Bool := c.isAlphanum

/-- `s[i]`; `std::string::operator[]` yields the NUL terminator at `size()`. -/
def char_at (s : String) (i : Nat) : Char := s.data.getD i (Char.ofNat 0)

/-- Scan for `pat` at the head of successive suffixes; `i` is the index of the
head of the current suffix. -/
def find_from (pat : List Char) : List Char → Nat → Option Nat
  | [], i => if pat = [] then some i else none
  | c :: cs, i =>
    if pat.isPrefixOf (c :: cs) then some i else find_from pat cs (i + 1)

/-- `s.find(pat, pos)`: the least index `i ≥ pos` at which `pat` occurs in `s`,
or `npos`. -/
def find (s pat : String) (pos : Nat) : Option Nat :=
  if s.length < pos then none else find_from pat.data (s.data.drop pos) pos

/-- Index of the last element of the list that satisfies `p`, the head of the
list having index `i`. -/
def find_last_from (p : Char → Bool) : List Char → Nat → Option Nat
  | [], _ => none
  | c :: cs, i =>
    match find_last_from p cs (i + 1) with
    | some j => some j
    | none => if p c then some i else none

/-- `s.find_last_of(chars)`: the greatest index whose character is one of
`chars`, or `npos`. -/
def find_last_of (s chars : String) : Option Nat :=
  find_last_from (fun c => chars.data.contains c) s.data 0

/-- `s.substr(pos, n)`: throws `std::out_of_range` when `pos > size()`
(in particular when `pos` is `npos`); a count of `npos` means "to the end". -/
def substr (s : String) (pos n : Option Nat) : Except Failure String :=
  match pos with
  | none => .error .out_of_range
  | some p =>
    if s.length < p then .error .out_of_range
    else
      match n with
      | none => .ok ⟨s.data.drop p⟩
      | some k => .ok ⟨(s.data.drop p).take k⟩

/-! ## `is_auto_type` -/

/-- The body of the `for` loop of `is_auto_type`; the second argument is the
loop variable `pos`, the first bounds the number of iterations. Inside the
loop `pos` is a position where "auto" was found, so `size() ≥ 4` and the
unsigned `size() - 1` does not wrap. -/
def is_auto_type_loop (type_name : String) : Nat → Option Nat → Bool
  | _, none => false
  | 0, some _ => false
  | fuel + 1, some pos =>
    if pos != 0 &&
        (isalnum (char_at type_name (pos - 1)) || char_at type_name (pos - 1) == '_') then
      is_auto_type_loop type_name fuel (find type_name "auto" (pos + 1))
    else if pos + 3 < type_name.length - 1 &&
        (isalnum (char_at type_name (pos + 3 + 1)) ||
          char_at type_name (pos + 3 + 1) == '_') then
      is_auto_type_loop type_name fuel (find type_name "auto" (pos + 1))
    else true

/-- `is_auto_type(type_name)`. Each iteration moves `pos` strictly to the
right, so `size() + 1` iterations are never exceeded. -/
def is_auto_type (type_name : String) : Bool :=
  is_auto_type_loop type_name (type_name.length + 1) (find type_name "auto" 0)

/-- The set of characters that make up an identifier: alphanumeric or
underscore. -/
def is_identifier_char (c : Char) : Bool := c.isAlphanum || c == '_'

/-- Whether the character immediately before position `pos` exists and is an
identifier character. -/
def preceded_by_identifier (T : String) (pos : Nat) : Bool :=
  match pos with
  | 0 => false
  | p + 1 =>
    match T.data[p]? with
    | some c => is_identifier_char c
    | none => false

/-- Whether the character immediately after the four characters at `pos`
exists and is an identifier character. -/
def followed_by_identifier (T : String) (pos : Nat) : Bool :=
  match T.data[pos + 4]? with
  | some c => is_identifier_char c
  | none => false

/-- Whole-word occurrence, as the specification words it: "auto" occurs in `T`
at `pos`, and is neither immediately preceded nor immediately followed by an
alphanumeric character or an underscore. -/
def whole_word_auto_at (T : String) (pos : Nat) : Bool :=
  "auto".data.isPrefixOf (T.data.drop pos) &&
  !preceded_by_identifier T pos && !followed_by_identifier T pos

/-! ## libclang values -/

/-- `CXTypeKind`: the two kinds the source tests for, and every other kind
by its libclang code (`CXType_Int` is 17, `CXType_Double` is 22, ...). -/
inductive CXTypeKind where
  | Invalid
  | Unexposed
  | Other (code : Nat)
deriving DecidableEq, Repr

/-- `CXType` as the source reads it: its kind and `clang_getTypeSpelling`. -/
structure CXType where
  kind : CXTypeKind
  spelling : String
deriving DecidableEq, Repr

/-- A type whose kind is `CXType_Invalid`: the value of a local `CXType` whose
kind was set to invalid, and `clang_getCursorType` of the null cursor. -/
def CXType.invalid : CXType := { kind := .Invalid, spelling := "" }

/-- `CXCursorKind`: the kinds named by the source or needed to describe its
inputs, and every other kind by its libclang code. -/
inductive CXCursorKind where
  | VarDecl
  | FunctionDecl
  | CXXMethod
  | Namespace
  | Constructor
  | Destructor
  | ConversionFunction
  | FunctionTemplate
  | TypeRef
  | InvalidFile
  | NoDeclFound
  | NotImplemented
  | InvalidCode
  | ReturnStmt
  | TranslationUnit
  | Other (code : Nat)
deriving DecidableEq, Repr

/-- `clang_isInvalid`: the four invalid cursor kinds. -/
def clang_isInvalid : CXCursorKind → Bool
  | .InvalidFile | .NoDeclFound | .NotImplemented | .InvalidCode => true
  | _ => false

/-- `CXCursor` as the deduction functions read it: `clang_getCursorKind`,
`clang_getCursorType`, `clang_getResultType` of that type (invalid when the
type is not a function type) and the children `clang_visitChildren` walks, in
order. The null cursor is `none : Option CXCursor`. -/
inductive CXCursor where
  | mk (kind : CXCursorKind) (type : CXType) (result_type : CXType)
      (children : List CXCursor)
deriving Repr

/-- `clang_getCursorKind`. -/
def clang_getCursorKind : CXCursor → CXCursorKind
  | .mk kind _ _ _ => kind

/-- `clang_getCursorType`. -/
def clang_getCursorType : CXCursor → CXType
  | .mk _ type _ _ => type

/-- `clang_getResultType(clang_getCursorType(cursor))`. -/
def clang_getCursorResultType : CXCursor → CXType
  | .mk _ _ result_type _ => result_type

/-- The children of a cursor, in the order `clang_visitChildren` visits them. -/
def CXCursor.children : CXCursor → List CXCursor
  | .mk _ _ _ children => children

/-- `CXChildVisitResult`. -/
inductive CXChildVisitResult where
  | Break
  | Continue
  | Recurse
deriving DecidableEq, Repr

/-! ## Type deduction -/

mutual
/-- `unexposed_type_deducer(cursor, parent, data)`: the visitor. The second
component of the result is the value of `*data` afterwards. The nested
`clang_visitChildren` call's return value is discarded by the source. -/
def unexposed_type_deducer : CXCursor → CXType → CXChildVisitResult × CXType
  | .mk _ type _ children, data =>
    if type.kind == .Invalid || is_auto_type type.spelling then
      (.Continue, (visit_children_unexposed_type_deducer children data).2)
    else
      (.Break, type)
/-- `clang_visitChildren(parent, unexposed_type_deducer, data)` over the
children of `parent`: the first component is libclang's return value (whether
the traversal was ended by `CXChildVisit_Break`), the second is `*data`. -/
def visit_children_unexposed_type_deducer : List CXCursor → CXType → Bool × CXType
  | [], data => (false, data)
  | .mk kind type result_type children :: rest, data =>
    match unexposed_type_deducer (.mk kind type result_type children) data with
    | (.Break, data1) => (true, data1)
    | (.Continue, data1) => visit_children_unexposed_type_deducer rest data1
    | (.Recurse, data1) =>
      match visit_children_unexposed_type_deducer children data1 with
      | (true, data2) => (true, data2)
      | (false, data2) => visit_children_unexposed_type_deducer rest data2
end

mutual
/-- Modelled from the spec: `libclang_vim::search_kind` is declared in a header
that is not part of the sources. It is the depth-first "find first matching
node" search: the start cursor itself when its kind satisfies the predicate,
otherwise the first descendant in pre-order that does, otherwise the null
cursor. -/
def search_kind (predicate : CXCursorKind → Bool) : CXCursor → Option CXCursor
  | .mk kind type result_type children =>
    if predicate kind then some (.mk kind type result_type children)
    else search_kind_children predicate children
/-- Modelled from the spec: the pre-order search of `search_kind` over a list
of siblings, first match wins. -/
def search_kind_children (predicate : CXCursorKind → Bool) :
    List CXCursor → Option CXCursor
  | [] => none
  | child :: rest =>
    match search_kind predicate child with
    | some found => some found
    | none => search_kind_children predicate rest
end

/-- The shared tail of `deduce_func_decl_type_at_cursor` (the `CXType_Invalid`
case, which the "auto" branch of the `CXType_Unexposed` case falls into):
deduce from the first return statement. -/
def deduce_from_return_stmt (cursor : CXCursor) : CXType :=
  match search_kind (fun kind => kind == .ReturnStmt) cursor with
  | none => CXType.invalid
  | some return_stmt_cursor =>
    (visit_children_unexposed_type_deducer return_stmt_cursor.children CXType.invalid).2

/-- `deduce_func_decl_type_at_cursor(cursor)`; `strcmp(..., "auto") != 0` is
inequality of the spelling with the four characters "auto". -/
def deduce_func_decl_type_at_cursor (cursor : CXCursor) : CXType :=
  let result_type := clang_getCursorResultType cursor
  match result_type.kind with
  | .Unexposed =>
    if result_type.spelling != "auto" then result_type
    else deduce_from_return_stmt cursor
  | .Invalid => deduce_from_return_stmt cursor
  | _ => result_type

/-- `deduce_type_at_cursor(cursor)`. -/
def deduce_type_at_cursor (cursor : CXCursor) : CXType :=
  let type := clang_getCursorType cursor
  if type.kind == .Invalid || is_auto_type type.spelling then
    (visit_children_unexposed_type_deducer cursor.children CXType.invalid).2
  else
    type

/-- The callback `deduce_func_return_type` hands to `at_specific_location`,
applied to the cursor at the queried location. `is_function_decl_kind`,
`stringize_type` and `clang_getCanonicalType` are defined outside the sources
and are parameters. -/
def deduce_func_return_type (is_function_decl_kind : CXCursorKind → Bool)
    (stringize_type : CXType → String) (clang_getCanonicalType : CXType → CXType)
    (cursor : CXCursor) : String :=
  match search_kind (fun kind => is_function_decl_kind kind) cursor with
  | none => "\x7b\x7d"
  | some func_decl_cursor =>
    let func_type := deduce_func_decl_type_at_cursor func_decl_cursor
    if func_type.kind == .Invalid then "\x7b\x7d"
    else
      let result := stringize_type func_type ++
        ("'canonical':\x7b" ++ stringize_type (clang_getCanonicalType func_type) ++ "\x7d,")
      "\x7b" ++ result ++ "\x7d"

/-! ### The specification's reading of the descent -/

mutual
/-- The proper descendants of a cursor in depth-first pre-order. -/
def descendants : CXCursor → List CXCursor
  | .mk _ _ _ children => descendants_of_list children
/-- Pre-order listing of a list of siblings with their descendants. -/
def descendants_of_list : List CXCursor → List CXCursor
  | [] => []
  | child :: rest => child :: (descendants child ++ descendants_of_list rest)
end

/-- A resolved type: its kind is not invalid and its spelling has no
whole-word "auto". -/
def is_resolved (type : CXType) : Bool :=
  type.kind != .Invalid && !is_auto_type type.spelling

/-- The type of the first descendant, in pre-order, whose type is resolved;
the invalid type when there is none. -/
def first_resolved_descendant_type (cursor : CXCursor) : CXType :=
  match (descendants cursor).find? (fun d => is_resolved (clang_getCursorType d)) with
  | some d => clang_getCursorType d
  | none => CXType.invalid

/-- What the descent may leave in its output slot: the invalid value it
started from, or a resolved type. -/
def deduced_ok (type : CXType) : Prop :=
  type = CXType.invalid ∨ is_resolved type = true

instance : DecidablePred deduced_ok := fun type =>
  inferInstanceAs (Decidable (type = CXType.invalid ∨ is_resolved type = true))

/-- The result type the function-declaration deduction treats as a
placeholder: invalid kind, or unexposed and spelled exactly "auto". -/
def is_placeholder_result (type : CXType) : Bool :=
  type.kind == .Invalid || (type.kind == .Unexposed && type.spelling == "auto")

/-- Modelled from the spec: `is_function_decl_kind` is declared in a header
that is not part of the sources; these are the "function-like declaration"
kinds. The functions of this file take the predicate as a parameter, and this
instance serves their examples. -/
def sample_is_function_decl_kind : CXCursorKind → Bool
  | .FunctionDecl | .CXXMethod | .Constructor | .Destructor
  | .ConversionFunction | .FunctionTemplate => true
  | _ => false

/-! ## Compilation flags -/

deriving instance DecidableEq for Except

/-- `CXCompilationDatabase`: for a file name, the compile commands recorded
for it, each an argument list (`clang_CompilationDatabase_getCompileCommands`). -/
structure CXCompilationDatabase where
  getCompileCommands : String → List (List String)

/-- The part of the world `parse_compilation_database` reads. -/
structure Environment where
  /-- Whether `std::ifstream(path).good()` holds right after opening `path`. -/
  stream_good : String → Bool
  /-- `clang_CompilationDatabase_fromDirectory`: the database, or `none` when
  the call reports an error. -/
  fromDirectory : String → Option CXCompilationDatabase

/-- The `while (true)` loop of `parse_compilation_database`. The state is
`directory` and `found`; the last argument collects the paths probed so far.
Returns the final `directory` with the probed paths, oldest first. -/
def directory_walk (stream_good : String → Bool) (file : String) :
    Nat → String → Option Nat → List String → Except Failure (String × List String)
  | 0, _, _, _ => .error .diverged
  | fuel + 1, directory, found, probed =>
    match substr file found (some 1) with
    | .error e => .error e
    | .ok separator =>
      let json := directory ++ separator ++ "compile_commands.json"
      if stream_good json then .ok (directory, probed ++ [json])
      else
        match find_last_of directory "/\\" with
        | none => .ok (directory, probed ++ [json])
        | some found1 =>
          match substr directory (some 0) (some found1) with
          | .error e => .error e
          | .ok directory1 =>
            directory_walk stream_good file fuel directory1 (some found1) (probed ++ [json])

/-- `parse_compilation_database(file)`. Every iteration of the loop shortens
`directory`, so `file.size() + 1` iterations are never exceeded. -/
def parse_compilation_database (env : Environment) (file : String) :
    Except Failure (List String) :=
  let found := find_last_of file "/\\"
  match substr file (some 0) found with
  | .error e => .error e
  | .ok directory0 =>
    match directory_walk env.stream_good file (file.length + 1) directory0 found [] with
    | .error e => .error e
    | .ok (directory, _) =>
      if directory.length == 0 then
        -- Our default when no JSON was found.
        .ok ["-std=c++1y"]
      else
        match env.fromDirectory directory with
        | none => .ok []
        | some database =>
          match database.getCompileCommands file with
          | [] => .ok []
          | command :: _ => .ok (command.filter (fun arg => file != arg))

/-- The loop of `get_compile_commands` that writes the arguments to the
stream `ss`, a single space before each but the first (`i` is the index). -/
def write_args : List String → Nat → String → String
  | [], _, ss => ss
  | arg :: rest, i, ss =>
    write_args rest (i + 1) (if i != 0 then ss ++ " " ++ arg else ss ++ arg)

/-- `get_compile_commands(file)`. -/
def get_compile_commands (env : Environment) (file : String) : Except Failure String :=
  match parse_compilation_database env file with
  | .error e => .error e
  | .ok args => .ok (write_args args 0 "\x7b'commands':'" ++ "'\x7d")

/-! ## Qualified names -/

/-- `CXCursor` as `get_current_function_at` reads it: `clang_getCursorKind`,
`clang_getCursorSpelling` and `clang_getCursorSemanticParent`. -/
inductive SemanticCursor where
  /-- `clang_getNullCursor()`. -/
  | null : SemanticCursor
  | node (kind : CXCursorKind) (spelling : String) (parent : SemanticCursor) : SemanticCursor
deriving DecidableEq, Repr

namespace SemanticCursor

/-- `clang_getCursorKind`; the null cursor has kind `CXCursor_InvalidFile`. -/
def kind : SemanticCursor → CXCursorKind
  | null => .InvalidFile
  | node kind _ _ => kind

/-- `clang_getCursorSpelling`; empty for the null cursor. -/
def spelling : SemanticCursor → String
  | null => ""
  | node _ spelling _ => spelling

/-- `clang_getCursorSemanticParent`; the null cursor for the null cursor. -/
def semantic_parent : SemanticCursor → SemanticCursor
  | null => null
  | node _ _ parent => parent

end SemanticCursor

/-- The parsed translation unit as the query reads it:
`clang_getCursor(tu, clang_getLocation(tu, file, line, column))`. -/
structure CXTranslationUnit where
  getCursor : Nat → Nat → SemanticCursor

/-- The first loop of `get_current_function_at`: resolve the cursor at
`(line, column)`, stepping the column back while the semantic parent is
invalid and the column is above 1. -/
def resolve_cursor (tu : CXTranslationUnit) (line : Nat) : Nat → SemanticCursor
  | 0 => tu.getCursor line 0
  | column + 1 =>
    let cursor := tu.getCursor line (column + 1)
    if !clang_isInvalid cursor.semantic_parent.kind || column + 1 ≤ 1 then cursor
    else resolve_cursor tu line column

/-- The second loop: walk semantic parents up to a function-like declaration
or the translation unit. `none` when the bound on iterations is exceeded. -/
def enclosing_function_walk (is_function_decl_kind : CXCursorKind → Bool) :
    Nat → SemanticCursor → Option SemanticCursor
  | 0, _ => none
  | fuel + 1, cursor =>
    if is_function_decl_kind cursor.kind || cursor.kind == .TranslationUnit then
      some cursor
    else
      enclosing_function_walk is_function_decl_kind fuel cursor.semantic_parent

/-- The name pushed for a cursor: the sentinel when the spelling is empty. -/
def scope_name (cursor : SemanticCursor) : String :=
  if cursor.spelling.length == 0 then "(anonymous namespace)" else cursor.spelling

/-- The third loop: push the name of the cursor and of each semantic parent
below the translation unit. The stack is a list, top first. `none` when the
bound on iterations is exceeded. -/
def push_scope_names : Nat → SemanticCursor → List String → Option (List String)
  | 0, _, _ => none
  | fuel + 1, cursor, stack =>
    let stack1 := scope_name cursor :: stack
    let cursor1 := cursor.semantic_parent
    if cursor1.kind == .TranslationUnit then some stack1
    else push_scope_names fuel cursor1 stack1

/-- The fourth loop: pop the stack into the stream `ss`, "::" before each
name but the first. -/
def pop_scope_names : List String → Bool → String → String
  | [], _, ss => ss
  | top :: rest, first, ss =>
    pop_scope_names rest false (if first then ss ++ top else ss ++ "::" ++ top)

/-- `get_current_function_at(location_info)`, after the parse: the argument
`translation_unit` is `none` when `clang_parseTranslationUnit` fails. The
result is `none` when a loop exceeds `fuel` iterations. -/
def get_current_function_at (is_function_decl_kind : CXCursorKind → Bool) (fuel : Nat)
    (translation_unit : Option CXTranslationUnit) (line column : Nat) : Option String :=
  match translation_unit with
  | none => some "\x7b\x7d"
  | some tu =>
    match enclosing_function_walk is_function_decl_kind fuel (resolve_cursor tu line column) with
    | none => none
    | some cursor =>
      if cursor.kind != .TranslationUnit then
        match push_scope_names fuel cursor [] with
        | none => none
        | some stack => some (pop_scope_names stack true "\x7b'name':'" ++ "'\x7d")
      else
        some ("\x7b'name':'" ++ "'\x7d")

/-- A chain of semantic parents: the cursors of `scopes`, innermost first,
stacked on `root`. -/
def nest_in : List (CXCursorKind × String) → SemanticCursor → SemanticCursor
  | [], root => root
  | (kind, name) :: outer, root => .node kind name (nest_in outer root)

/-- The component a scope name contributes to a qualified name. -/
def name_component (name : String) : String :=
  if name.length == 0 then "(anonymous namespace)" else name

/-! ## Sample inputs -/

def int_type : CXType := { kind := .Other 17, spelling := "int" }

def double_type : CXType := { kind := .Other 22, spelling := "double" }

/-- A cursor without children and without a result type. -/
def leaf (kind : CXCursorKind) (type : CXType) : CXCursor :=
  .mk kind type CXType.invalid []

/-- A declaration `auto v = ...` whose first child has no type of its own and
holds an `int` expression, and whose second child is a `double` expression. -/
def nested_then_sibling : CXCursor :=
  .mk .VarDecl { kind := .Unexposed, spelling := "auto" } CXType.invalid
    [.mk (.Other 100) CXType.invalid CXType.invalid [leaf (.Other 106) int_type],
     leaf (.Other 107) double_type]

/-- A variable whose type libclang leaves unexposed, such as a dependent
type `T`. -/
def unexposed_var : CXCursor := leaf .VarDecl { kind := .Unexposed, spelling := "T" }

/-- A function with the given result type whose body is `return 1;`. -/
def func_returning_int (result_type : CXType) : CXCursor :=
  .mk .FunctionDecl { kind := .Other 111, spelling := "" } result_type
    [.mk (.Other 202) CXType.invalid CXType.invalid
      [.mk .ReturnStmt CXType.invalid CXType.invalid [leaf (.Other 106) int_type]]]

/-- A function `auto f() { g(); }`: a body without a return statement. -/
def auto_func_without_return : CXCursor :=
  .mk .FunctionDecl { kind := .Other 111, spelling := "auto ()" }
    { kind := .Unexposed, spelling := "auto" }
    [.mk (.Other 202) CXType.invalid CXType.invalid [leaf (.Other 103) int_type]]

/-- A world without any file and without any loadable database. -/
def empty_environment : Environment :=
  { stream_good := fun _ => false, fromDirectory := fun _ => none }

/-- A world whose only file is `/compile_commands.json`, a database without
entries. -/
def root_database_environment : Environment :=
  { stream_good := fun path => path == "/compile_commands.json",
    fromDirectory := fun _ => some { getCompileCommands := fun _ => [] } }

/-- A translation unit in which every position resolves to a type reference
at global scope, whose semantic parent is the null cursor. -/
def global_type_ref_unit : CXTranslationUnit :=
  { getCursor := fun _ _ => .node .TypeRef "Foo" .null }

/-- Function `f` in an anonymous namespace inside namespace `N`. -/
def f_in_anonymous_in_N : SemanticCursor :=
  .node .FunctionDecl "f"
    (.node .Namespace "" (.node .Namespace "N" (.node .TranslationUnit "a.cpp" .null)))

/-- A translation unit in which every position resolves to a statement inside
`f_in_anonymous_in_N`. -/
def anonymous_namespace_unit : CXTranslationUnit :=
  { getCursor := fun _ _ => .node (.Other 202) "" f_in_anonymous_in_N }

/-! ## Declaration deduction -/

/-- The callback `deduce_func_or_var_decl` hands to `at_specific_location`,
applied to the cursor at the queried location. The strategy is selected by
`clang_getCursorKind(cursor)`, the kind of the cursor the search started
from. `is_function_decl_kind`, `stringize_type` and `clang_getCanonicalType`
are defined outside the sources and are parameters. -/
def deduce_func_or_var_decl (is_function_decl_kind : CXCursorKind → Bool)
    (stringize_type : CXType → String) (clang_getCanonicalType : CXType → CXType)
    (cursor : CXCursor) : String :=
  match search_kind (fun kind => kind == .VarDecl || is_function_decl_kind kind) cursor with
  | none => "\x7b\x7d"
  | some func_or_var_decl =>
    let result_type :=
      if clang_getCursorKind cursor == .VarDecl then
        deduce_type_at_cursor func_or_var_decl
      else
        deduce_func_decl_type_at_cursor func_or_var_decl
    if result_type.kind == .Invalid then "\x7b\x7d"
    else
      let result := stringize_type result_type ++
        ("'canonical':\x7b" ++ stringize_type (clang_getCanonicalType result_type) ++ "\x7d,")
      "\x7b" ++ result ++ "\x7d"

/-- The rendering of a deduced type that every deduction query shares: the
empty map for the invalid type, otherwise the type and its canonical form. -/
def render_deduced_type (stringize_type : CXType → String)
    (clang_getCanonicalType : CXType → CXType) (type : CXType) : String :=
  if type.kind == .Invalid then "\x7b\x7d"
  else
    "\x7b" ++ (stringize_type type ++
      ("'canonical':\x7b" ++ stringize_type (clang_getCanonicalType type) ++ "\x7d,")) ++ "\x7d"

/-- The strategy the specification assigns to a located declaration: variable
deduction for a variable declaration, function deduction otherwise. -/
def deduce_by_located_kind (located : CXCursor) : CXType :=
  if clang_getCursorKind located == .VarDecl then deduce_type_at_cursor located
  else deduce_func_decl_type_at_cursor located

/-! ## Completion -/

/-- `CXCompletionChunkKind`: typed text, and every other kind by its libclang
code. -/
inductive CXCompletionChunkKind where
  | TypedText
  | Other (code : Nat)
deriving DecidableEq, Repr

/-- One chunk of a completion string: `clang_getCompletionChunkKind` and
`clang_getCompletionChunkText`. -/
structure CXCompletionChunk where
  kind : CXCompletionChunkKind
  text : String
deriving DecidableEq, Repr

/-- `CXCompletionString`: the chunks of one candidate, in order. -/
abbrev CXCompletionString := List CXCompletionChunk

/-- The parsed translation unit as `get_completion_at` reads it:
`clang_codeCompleteAt` at a line and column, `none` for a null result. -/
structure CXCompletionUnit where
  codeCompleteAt : Nat → Nat → Option (List CXCompletionString)

/-- The inner loop of `get_completion_at`: append the text of each typed-text
chunk to the stream `match`, skipping every other chunk. -/
def typed_text : CXCompletionString → String → String
  | [], acc => acc
  | chunk :: rest, acc =>
    if chunk.kind != .TypedText then typed_text rest acc
    else typed_text rest (acc ++ chunk.text)

/-- Lexicographic "less than" on character sequences, a proper prefix being
less than its extensions. -/
def chars_less : List Char → List Char → Bool
  | [], [] => false
  | [], _ :: _ => true
  | _ :: _, [] => false
  | a :: as, b :: bs =>
    if a.toNat < b.toNat then true
    else if b.toNat < a.toNat then false
    else chars_less as bs

/-- `std::less<std::string>`, the ordering of `std::set<std::string>`. -/
def string_less (x y : String) : Bool := chars_less x.data y.data

/-- `std::set<std::string>::insert` on the set held as its ascending list of
elements: the element goes before the first greater one, and the list is
unchanged when an equivalent element (neither less than the other) is
present. -/
def set_insert (x : String) : List String → List String
  | [] => [x]
  | y :: rest =>
    if string_less x y then x :: y :: rest
    else if string_less y x then y :: set_insert x rest
    else y :: rest

/-- The outer loop of `get_completion_at`: insert the typed text of each
result into `matches`. -/
def collect_matches : List CXCompletionString → List String → List String
  | [], matches_ => matches_
  | completion_string :: rest, matches_ =>
    collect_matches rest (set_insert (typed_text completion_string "") matches_)

/-- The loop that writes `matches` to the stream `ss`: a closing quote, a
comma, a blank and an opening quote go before each element but the first. -/
def write_matches : List String → Bool → String → String
  | [], _, ss => ss
  | x :: rest, at_begin, ss =>
    write_matches rest false (if at_begin then ss ++ x else ss ++ "', '" ++ x)

/-- `get_completion_at(location_info)`, after the parse: the argument
`translation_unit` is `none` when `clang_parseTranslationUnit` fails. The
header is written to the stream before the parse. -/
def get_completion_at (translation_unit : Option CXCompletionUnit) (line column : Nat) :
    String :=
  match translation_unit with
  | none => "[]"
  | some tu =>
    let matches_ :=
      match tu.codeCompleteAt line column with
      | none => []
      | some results => collect_matches results []
    write_matches matches_ true "['" ++ "']"

/-! ## The directory walk, as the specification reads it -/

/-- The first 26 lines of `parse_compilation_database`: the initial
`directory` and `found`, and the loop. Returns the final `directory` and the
probed paths, oldest first. -/
def compilation_database_walk (stream_good : String → Bool) (file : String) :
    Except Failure (String × List String) :=
  let found := find_last_of file "/\\"
  match substr file (some 0) found with
  | .error e => .error e
  | .ok directory0 => directory_walk stream_good file (file.length + 1) directory0 found []

/-- A directory separator: slash or backslash. -/
def is_separator (c : Char) : Bool := c == '/' || c == '\\'

/-- The positions below `n` at which `file` has a directory separator,
greatest first. -/
def separators_below (file : String) : Nat → List Nat
  | 0 => []
  | n + 1 =>
    if is_separator (char_at file n) then n :: separators_below file n
    else separators_below file n

/-- The positions of all directory separators of `file`, greatest first: one
per ancestor directory of the file, the containing directory first. -/
def separator_positions (file : String) : List Nat :=
  separators_below file file.length

/-- The ancestor directory of `file` that ends before the separator at
position `i`. -/
def ancestor_directory (file : String) (i : Nat) : String :=
  ⟨file.data.take i⟩

/-- The path of `compile_commands.json` in the ancestor directory that ends
before the separator at position `i`, written with that separator. -/
def probe_path (file : String) (i : Nat) : String :=
  ancestor_directory file i ++ ⟨(file.data.drop i).take 1⟩ ++ "compile_commands.json"

/-! ## Sample inputs for the later claims -/

/-- A declaration statement `auto x = 1;`: the statement cursor holds the
variable declaration, whose initializer is an `int` expression. -/
def decl_stmt_with_auto_var : CXCursor :=
  .mk (.Other 231) CXType.invalid CXType.invalid
    [.mk .VarDecl { kind := .Unexposed, spelling := "auto" } CXType.invalid
      [leaf (.Other 106) int_type]]

/-- A translation unit in which code completion yields a result set without
candidates. -/
def no_candidates_unit : CXCompletionUnit :=
  { codeCompleteAt := fun _ _ => some [] }

/-- A translation unit in which code completion yields three candidates, two
of them with the same typed text. -/
def three_candidates_unit : CXCompletionUnit :=
  { codeCompleteAt := fun _ _ => some
      [[{ kind := .Other 15, text := "void" }, { kind := .TypedText, text := "size" },
        { kind := .Other 6, text := "(" }, { kind := .Other 7, text := ")" }],
       [{ kind := .TypedText, text := "begin" }],
       [{ kind := .Other 15, text := "int" }, { kind := .TypedText, text := "size" }]] }

/-- A world in which only `/a/compile_commands.json` exists. -/
def database_in_a_environment : Environment :=
  { stream_good := fun path => path == "/a/compile_commands.json",
    fromDirectory := fun _ => none }

/-! # Theorems -/

/-! ## Facts about `find` -/

theorem find_from_some (pat : List Char) :
    ∀ (l : List Char) (i j : Nat), find_from pat l i = some j →
      ∃ k, j = i + k ∧ k ≤ l.length ∧ pat.isPrefixOf (l.drop k) = true ∧
        ∀ k', k' < k → pat.isPrefixOf (l.drop k') = false := by
  intro l
  induction l with
  | nil =>
    intro i j h
    simp only [find_from] at h
    split at h
    · rename_i hp
      refine ⟨0, ?_, le_refl _, ?_, ?_⟩
      · simpa using (Option.some.inj h).symm
      · subst hp; rfl
      · intro k' hk'; omega
    · cases h
  | cons c cs ih =>
    intro i j h
    simp only [find_from] at h
    split at h
    · rename_i hp
      refine ⟨0, ?_, Nat.zero_le _, ?_, ?_⟩
      · simpa using (Option.some.inj h).symm
      · simpa using hp
      · intro k' hk'; omega
    · rename_i hp
      obtain ⟨k, hj, hk, hocc, hmin⟩ := ih (i + 1) j h
      refine ⟨k + 1, by omega, by simpa using hk, by simpa using hocc, ?_⟩
      intro k' hk'
      cases k' with
      | zero => simpa using Bool.eq_false_iff.2 hp
      | succ n => simpa using hmin n (by omega)

theorem find_from_none (pat : List Char) :
    ∀ (l : List Char) (i : Nat), find_from pat l i = none →
      ∀ k, pat.isPrefixOf (l.drop k) = false := by
  intro l
  induction l with
  | nil =>
    intro i h k
    simp only [find_from] at h
    split at h
    · cases h
    · rename_i hp
      cases pat with
      | nil => exact absurd rfl hp
      | cons a as => simp [List.isPrefixOf]
  | cons c cs ih =>
    intro i h k
    simp only [find_from] at h
    split at h
    · cases h
    · rename_i hp
      cases k with
      | zero => simpa using Bool.eq_false_iff.2 hp
      | succ n => simpa using ih (i + 1) h n

theorem find_some {s pat : String} {q p : Nat} (h : find s pat q = some p) :
    q ≤ p ∧ p ≤ s.length ∧ pat.data.isPrefixOf (s.data.drop p) = true ∧
      ∀ j, q ≤ j → j < p → pat.data.isPrefixOf (s.data.drop j) = false := by
  unfold find at h
  split at h
  · cases h
  · rename_i hq
    obtain ⟨k, hp, hk, hocc, hmin⟩ := find_from_some _ _ _ _ h
    have hlen : s.length = s.data.length := rfl
    simp only [List.length_drop] at hk
    refine ⟨by omega, by omega, ?_, ?_⟩
    · rw [hp]; simpa [List.drop_drop, Nat.add_comm] using hocc
    · intro j hqj hjp
      have := hmin (j - q) (by omega)
      rw [List.drop_drop] at this
      have e : q + (j - q) = j := by omega
      rw [e] at this; exact this

theorem find_none {s pat : String} {q : Nat} (hpat : pat.data ≠ [])
    (h : find s pat q = none) :
    ∀ j, q ≤ j → pat.data.isPrefixOf (s.data.drop j) = false := by
  intro j hqj
  unfold find at h
  split at h
  · rename_i hq
    have hlen : s.length = s.data.length := rfl
    have : s.data.drop j = [] := List.drop_eq_nil_of_le (by omega)
    rw [this]
    cases hd : pat.data with
    | nil => exact absurd hd hpat
    | cons a as => simp [List.isPrefixOf]
  · have := find_from_none _ _ _ h (j - q)
    rw [List.drop_drop] at this
    have e : q + (j - q) = j := by omega
    rw [e] at this; exact this

/-- An occurrence of "auto" at `p` leaves room for its four characters. -/
theorem auto_occurs_length {T : String} {p : Nat}
    (h : "auto".data.isPrefixOf (T.data.drop p) = true) : p + 4 ≤ T.length := by
  have hlen : T.length = T.data.length := rfl
  have h2 := (List.isPrefixOf_iff_prefix).1 h
  have h3 := h2.length_le
  simp only [List.length_drop] at h3
  have h4 : "auto".data.length = 4 := by decide
  rw [h4] at h3
  omega

/-- The first boundary test of the loop body agrees with "immediately preceded
by an identifier character". -/
theorem preceded_check (T : String) (p : Nat) (hp : p ≤ T.length) :
    (p != 0 && (isalnum (char_at T (p - 1)) || char_at T (p - 1) == '_')) =
      preceded_by_identifier T p := by
  have hlen : T.length = T.data.length := rfl
  cases p with
  | zero => rfl
  | succ q =>
    have hq : q < T.data.length := by omega
    simp [preceded_by_identifier, char_at, isalnum, is_identifier_char, List.getD_eq_getElem?_getD,
      List.getElem?_eq_getElem hq]

/-- The second boundary test of the loop body agrees with "immediately
followed by an identifier character". -/
theorem followed_check (T : String) (p : Nat) (hp : p + 4 ≤ T.length) :
    (decide (p + 3 < T.length - 1) &&
        (isalnum (char_at T (p + 3 + 1)) || char_at T (p + 3 + 1) == '_')) =
      followed_by_identifier T p := by
  have hlen : T.length = T.data.length := rfl
  by_cases h : p + 4 < T.data.length
  · have h1 : p + 3 < T.length - 1 := by omega
    simp [followed_by_identifier, char_at, isalnum, is_identifier_char, List.getD_eq_getElem?_getD,
      List.getElem?_eq_getElem h, h1]
  · have h1 : ¬ (p + 3 < T.length - 1) := by omega
    have h2 : T.data[p + 4]? = none := List.getElem?_eq_none (by omega)
    simp [followed_by_identifier, h1, h2]

/-- The loop started at the first occurrence at or after `q` answers whether
some whole-word occurrence lies at or after `q`. -/
theorem is_auto_type_loop_iff (T : String) :
    ∀ (fuel q : Nat), T.length < fuel + q →
      (is_auto_type_loop T fuel (find T "auto" q) = true ↔
        ∃ pos, q ≤ pos ∧ whole_word_auto_at T pos = true) := by
  intro fuel
  induction fuel with
  | zero =>
    intro q hq
    cases hf : find T "auto" q with
    | none =>
      have hn := find_none (by decide) hf
      simp only [is_auto_type_loop]
      constructor
      · intro h; cases h
      · rintro ⟨pos, hpos, hw⟩
        simp [whole_word_auto_at, hn pos hpos] at hw
    | some p =>
      obtain ⟨h1, h2, -, -⟩ := find_some hf
      omega
  | succ fuel ih =>
    intro q hq
    cases hf : find T "auto" q with
    | none =>
      have hn := find_none (by decide) hf
      simp only [is_auto_type_loop]
      constructor
      · intro h; cases h
      · rintro ⟨pos, hpos, hw⟩
        simp [whole_word_auto_at, hn pos hpos] at hw
    | some p =>
      obtain ⟨hqp, hpl, hocc, hmin⟩ := find_some hf
      have hroom := auto_occurs_length hocc
      have hrest : (∃ pos, q ≤ pos ∧ whole_word_auto_at T pos = true) ↔
          (whole_word_auto_at T p = true ∨
            ∃ pos, p + 1 ≤ pos ∧ whole_word_auto_at T pos = true) := by
        constructor
        · rintro ⟨pos, hpos, hw⟩
          rcases Nat.lt_trichotomy pos p with hlt | heq | hgt
          · have := hmin pos hpos hlt
            simp [whole_word_auto_at, this] at hw
          · left; rw [← heq]; exact hw
          · right; exact ⟨pos, hgt, hw⟩
        · rintro (hw | ⟨pos, hpos, hw⟩)
          · exact ⟨p, hqp, hw⟩
          · exact ⟨pos, by omega, hw⟩
      have hnext := ih (p + 1) (by omega)
      have hww : whole_word_auto_at T p =
          (!(p != 0 && (isalnum (char_at T (p - 1)) || char_at T (p - 1) == '_')) &&
            !(decide (p + 3 < T.length - 1) &&
              (isalnum (char_at T (p + 3 + 1)) || char_at T (p + 3 + 1) == '_'))) := by
        rw [preceded_check T p hpl, followed_check T p hroom]
        simp only [whole_word_auto_at, hocc, Bool.true_and]
      rw [hrest, hww]
      simp only [is_auto_type_loop]
      split
      · rename_i hc1
        rw [hnext, hc1]
        simp
      · rename_i hc1
        split
        · rename_i hc2
          rw [hnext, hc2]
          simp
        · rename_i hc2
          simp only [Bool.not_eq_true] at hc1 hc2
          rw [hc1, hc2]
          simp

/-- C1: `is_auto_type(T)` is true exactly when "auto" occurs in `T` at some
position where it is neither immediately preceded nor immediately followed by
an alphanumeric character or an underscore; the four sample spellings of the
specification evaluate as stated. -/
theorem is_auto_type_whole_word :
    (∀ T : String, is_auto_type T = true ↔ ∃ pos, whole_word_auto_at T pos = true) ∧
    is_auto_type "auto" = true ∧
    is_auto_type "const auto&" = true ∧
    is_auto_type "autoComplete" = false ∧
    is_auto_type "MyAutoType" = false := by
  refine ⟨?_, by decide, by decide, by decide, by decide⟩
  intro T
  unfold is_auto_type
  rw [is_auto_type_loop_iff T (T.length + 1) 0 (by omega)]
  constructor
  · rintro ⟨pos, -, hw⟩; exact ⟨pos, hw⟩
  · rintro ⟨pos, hw⟩; exact ⟨pos, Nat.zero_le _, hw⟩

/-! ## Facts about the descent -/

theorem unexposed_type_deducer_eq (cursor : CXCursor) (data : CXType) :
    unexposed_type_deducer cursor data =
      if is_resolved (clang_getCursorType cursor) then
        (.Break, clang_getCursorType cursor)
      else
        (.Continue, (visit_children_unexposed_type_deducer cursor.children data).2) := by
  cases cursor with
  | mk kind type result_type children =>
    simp only [unexposed_type_deducer, clang_getCursorType, CXCursor.children, is_resolved]
    by_cases h : (type.kind == CXTypeKind.Invalid || is_auto_type type.spelling) = true
    · have h2 : (type.kind != CXTypeKind.Invalid && !is_auto_type type.spelling) = false := by
        simp only [Bool.or_eq_true, beq_iff_eq] at h
        rcases h with h | h <;> simp [h]
      rw [if_pos h, h2]; rfl
    · have h2 : (type.kind != CXTypeKind.Invalid && !is_auto_type type.spelling) = true := by
        simp only [Bool.or_eq_true, beq_iff_eq, not_or] at h
        simp [h.1, h.2]
      rw [if_neg h, h2]; rfl

theorem visit_children_nil (data : CXType) :
    visit_children_unexposed_type_deducer [] data = (false, data) := by
  simp only [visit_children_unexposed_type_deducer]

theorem visit_children_cons (child : CXCursor) (rest : List CXCursor) (data : CXType) :
    visit_children_unexposed_type_deducer (child :: rest) data =
      if is_resolved (clang_getCursorType child) then
        (true, clang_getCursorType child)
      else
        visit_children_unexposed_type_deducer rest
          (visit_children_unexposed_type_deducer child.children data).2 := by
  cases child with
  | mk kind type result_type children =>
    simp only [visit_children_unexposed_type_deducer]
    rw [unexposed_type_deducer_eq]
    by_cases h : is_resolved (clang_getCursorType (CXCursor.mk kind type result_type children)) = true
    · simp only [h, if_true]
    · simp only [h, if_false, CXCursor.children]
      rfl

mutual
theorem visit_cursor_children_ok :
    ∀ (cursor : CXCursor) (data : CXType), deduced_ok data →
      deduced_ok (visit_children_unexposed_type_deducer cursor.children data).2
  | .mk _ _ _ children, data, h => visit_children_ok children data h
theorem visit_children_ok :
    ∀ (cursors : List CXCursor) (data : CXType), deduced_ok data →
      deduced_ok (visit_children_unexposed_type_deducer cursors data).2
  | [], data, h => by rw [visit_children_nil]; exact h
  | child :: rest, data, h => by
    rw [visit_children_cons]
    split
    · rename_i hres
      exact Or.inr hres
    · exact visit_children_ok rest _ (visit_cursor_children_ok child data h)
end

mutual
theorem search_kind_none (predicate : CXCursorKind → Bool) :
    ∀ (cursor : CXCursor), predicate (clang_getCursorKind cursor) = false →
      (∀ d ∈ descendants cursor, predicate (clang_getCursorKind d) = false) →
      search_kind predicate cursor = none
  | .mk kind _ _ children, hk, hd => by
    simp only [clang_getCursorKind] at hk
    simp only [search_kind, hk]
    exact search_kind_children_none predicate children
      (by simpa only [descendants] using hd)
theorem search_kind_children_none (predicate : CXCursorKind → Bool) :
    ∀ (cursors : List CXCursor),
      (∀ d ∈ descendants_of_list cursors, predicate (clang_getCursorKind d) = false) →
      search_kind_children predicate cursors = none
  | [], _ => by simp only [search_kind_children]
  | child :: rest, hd => by
    simp only [descendants_of_list, List.mem_cons, List.mem_append] at hd
    have h1 := search_kind_none predicate child (hd child (Or.inl rfl))
      (fun d hmem => hd d (Or.inr (Or.inl hmem)))
    have h2 := search_kind_children_none predicate rest
      (fun d hmem => hd d (Or.inr (Or.inr hmem)))
    simp only [search_kind_children, h1, h2]
end

mutual
theorem search_kind_some (predicate : CXCursorKind → Bool) :
    ∀ (cursor found : CXCursor), search_kind predicate cursor = some found →
      predicate (clang_getCursorKind found) = true
  | .mk kind type result_type children, found, h => by
    simp only [search_kind] at h
    split at h
    · rename_i hk
      cases h
      simpa only [clang_getCursorKind] using hk
    · exact search_kind_children_some predicate children found h
theorem search_kind_children_some (predicate : CXCursorKind → Bool) :
    ∀ (cursors : List CXCursor) (found : CXCursor),
      search_kind_children predicate cursors = some found →
      predicate (clang_getCursorKind found) = true
  | [], found, h => by simp only [search_kind_children] at h; cases h
  | child :: rest, found, h => by
    simp only [search_kind_children] at h
    split at h
    · rename_i f hf
      cases h
      exact search_kind_some predicate child _ hf
    · exact search_kind_children_some predicate rest found h
end

/-! ## Type deduction: the claims -/

/-- C2: on the declaration `nested_then_sibling`, whose own type is spelled
"auto", the first descendant in pre-order with a resolved type is the nested
`int` expression, but `deduce_type_at_cursor` returns `double`, the type of
the later sibling: the visitor continues with the siblings after a nested
traversal has found a type. -/
theorem deduce_type_at_cursor_later_sibling_wins :
    is_auto_type (clang_getCursorType nested_then_sibling).spelling = true ∧
    first_resolved_descendant_type nested_then_sibling = int_type ∧
    deduce_type_at_cursor nested_then_sibling = double_type := by
  decide

/-- C3, as stated, fails: both deductions return an unexposed-kind type when
the type read from the node is unexposed and not spelled "auto". -/
theorem deduction_returns_unexposed_type :
    ¬ ∀ cursor : CXCursor,
      ((deduce_type_at_cursor cursor).kind ≠ .Unexposed ∧
        is_auto_type (deduce_type_at_cursor cursor).spelling = false) ∧
      ((deduce_func_decl_type_at_cursor cursor).kind ≠ .Unexposed ∧
        is_auto_type (deduce_func_decl_type_at_cursor cursor).spelling = false) := by
  intro h
  have h1 := (h unexposed_var).1.1
  exact h1 (by decide)

/-- C3, amended: `deduce_type_at_cursor` returns the invalid value or a type
of valid kind whose spelling has no whole-word "auto" (possibly of unexposed
kind); `deduce_func_decl_type_at_cursor` does so when the result type is a
placeholder (invalid, or unexposed and spelled exactly "auto"), and otherwise
returns the result type unchanged. -/
theorem deduction_result_invalid_or_resolved (cursor : CXCursor) :
    deduced_ok (deduce_type_at_cursor cursor) ∧
    (is_placeholder_result (clang_getCursorResultType cursor) = true →
      deduced_ok (deduce_func_decl_type_at_cursor cursor)) ∧
    (is_placeholder_result (clang_getCursorResultType cursor) = false →
      deduce_func_decl_type_at_cursor cursor = clang_getCursorResultType cursor) := by
  have hbody : deduced_ok (deduce_from_return_stmt cursor) := by
    unfold deduce_from_return_stmt
    split
    · exact Or.inl rfl
    · exact visit_cursor_children_ok _ _ (Or.inl rfl)
  refine ⟨?_, ?_, ?_⟩
  · unfold deduce_type_at_cursor
    simp only
    split
    · exact visit_cursor_children_ok _ _ (Or.inl rfl)
    · rename_i hc
      right
      simp only [Bool.or_eq_true, beq_iff_eq, not_or, Bool.not_eq_true] at hc
      simp [is_resolved, hc.1, hc.2]
  · intro hp
    unfold deduce_func_decl_type_at_cursor
    simp only [is_placeholder_result, Bool.or_eq_true, Bool.and_eq_true, beq_iff_eq] at hp
    simp only
    split
    · rename_i hk
      rcases hp with hp | ⟨-, hs⟩
      · rw [hk] at hp; cases hp
      · simp only [hs, bne_self_eq_false, Bool.false_eq_true, if_false]
        exact hbody
    · exact hbody
    · rename_i hu hi
      rcases hp with hp | ⟨hp, -⟩
      · exact absurd hp hi
      · exact absurd hp hu
  · intro hp
    unfold deduce_func_decl_type_at_cursor
    simp only [is_placeholder_result, Bool.or_eq_false_iff, Bool.and_eq_false_iff,
      beq_eq_false_iff_ne, ne_eq] at hp
    simp only
    split
    · rename_i hk
      rcases hp.2 with h | h
      · exact absurd hk h
      · have hne : ((clang_getCursorResultType cursor).spelling != "auto") = true := by
          simpa using h
        simp only [hne, if_true]
    · rename_i hk
      exact absurd hk hp.1
    · rfl

/-- The amended C3 at the function `auto f() { return 1; }` and at the same
function with result type `const auto&`. -/
theorem deduction_result_invalid_or_resolved_witness :
    deduced_ok (deduce_func_decl_type_at_cursor
      (func_returning_int { kind := .Unexposed, spelling := "auto" })) ∧
    deduce_func_decl_type_at_cursor
        (func_returning_int { kind := .Unexposed, spelling := "const auto&" }) =
      { kind := .Unexposed, spelling := "const auto&" } :=
  ⟨(deduction_result_invalid_or_resolved _).2.1 (by decide),
   (deduction_result_invalid_or_resolved _).2.2 (by decide)⟩

/-- C4, as stated, fails: with an unexposed result type, deduction from the
body does not happen exactly when `is_auto_type` holds of the spelling. -/
theorem func_decl_deduction_not_whole_word :
    ¬ ∀ cursor : CXCursor, (clang_getCursorResultType cursor).kind = .Unexposed →
      deduce_func_decl_type_at_cursor cursor =
        if is_auto_type (clang_getCursorResultType cursor).spelling then
          deduce_from_return_stmt cursor
        else clang_getCursorResultType cursor := by
  intro h
  have h1 := h (func_returning_int { kind := .Unexposed, spelling := "const auto&" }) rfl
  revert h1
  decide

/-- C4, amended: with an unexposed result type,
`deduce_func_decl_type_at_cursor` deduces from the body exactly when the
spelling is exactly "auto"; any other spelling, "const auto&" included, is
returned unchanged. -/
theorem func_decl_deduction_exact_auto (cursor : CXCursor)
    (h : (clang_getCursorResultType cursor).kind = .Unexposed) :
    deduce_func_decl_type_at_cursor cursor =
      if (clang_getCursorResultType cursor).spelling = "auto" then
        deduce_from_return_stmt cursor
      else clang_getCursorResultType cursor := by
  unfold deduce_func_decl_type_at_cursor
  simp only
  split
  · by_cases hs : (clang_getCursorResultType cursor).spelling = "auto"
    · simp [hs]
    · simp [hs]
  · rename_i hi
    rw [h] at hi; cases hi
  · rename_i hu _
    exact absurd h hu

/-- The amended C4 at a function with result type `const auto&` whose body
returns an `int`. -/
theorem func_decl_deduction_exact_auto_witness :
    deduce_func_decl_type_at_cursor
        (func_returning_int { kind := .Unexposed, spelling := "const auto&" }) =
      { kind := .Unexposed, spelling := "const auto&" } :=
  (func_decl_deduction_exact_auto
    (func_returning_int { kind := .Unexposed, spelling := "const auto&" }) rfl).trans
    (by decide)

/-- C5: when the search for a function-like declaration from the start cursor
locates a function whose result type is a placeholder (invalid, or unexposed
and spelled exactly "auto") and which has no return-statement descendant,
`deduce_func_decl_type_at_cursor` returns the invalid type and
`deduce_func_return_type` renders the empty map. -/
theorem bodyless_placeholder_function_has_no_type
    (is_function_decl_kind : CXCursorKind → Bool)
    (stringize_type : CXType → String) (clang_getCanonicalType : CXType → CXType)
    (start func : CXCursor)
    (hkinds : is_function_decl_kind .ReturnStmt = false)
    (hfound : search_kind (fun kind => is_function_decl_kind kind) start = some func)
    (hplaceholder : is_placeholder_result (clang_getCursorResultType func) = true)
    (hnoreturn : ∀ d ∈ descendants func, clang_getCursorKind d ≠ .ReturnStmt) :
    deduce_func_decl_type_at_cursor func = CXType.invalid ∧
    deduce_func_return_type is_function_decl_kind stringize_type clang_getCanonicalType
      start = "\x7b\x7d" := by
  have hfk : is_function_decl_kind (clang_getCursorKind func) = true :=
    search_kind_some _ start func hfound
  have hself : clang_getCursorKind func ≠ .ReturnStmt := by
    intro he
    rw [he, hkinds] at hfk
    cases hfk
  have hsearch : search_kind (fun kind => kind == .ReturnStmt) func = none := by
    apply search_kind_none
    · simpa using hself
    · intro d hd
      simpa using hnoreturn d hd
  have hbody : deduce_from_return_stmt func = CXType.invalid := by
    unfold deduce_from_return_stmt
    rw [hsearch]
  have hdeduce : deduce_func_decl_type_at_cursor func = CXType.invalid := by
    unfold deduce_func_decl_type_at_cursor
    simp only [is_placeholder_result, Bool.or_eq_true, Bool.and_eq_true, beq_iff_eq]
      at hplaceholder
    simp only
    split
    · rename_i hk
      rcases hplaceholder with hp | ⟨-, hs⟩
      · rw [hk] at hp; cases hp
      · simp only [hs, bne_self_eq_false, Bool.false_eq_true, if_false]
        exact hbody
    · exact hbody
    · rename_i hu hi
      rcases hplaceholder with hp | ⟨hp, -⟩
      · exact absurd hp hi
      · exact absurd hp hu
  refine ⟨hdeduce, ?_⟩
  unfold deduce_func_return_type
  rw [hfound]
  simp only [hdeduce]
  rfl

/-- C5 at the function `auto f() { g(); }`, which has a body but no return
statement. -/
theorem bodyless_placeholder_function_has_no_type_witness :
    deduce_func_decl_type_at_cursor auto_func_without_return = CXType.invalid ∧
    deduce_func_return_type sample_is_function_decl_kind (fun type => type.spelling)
      (fun type => type) auto_func_without_return = "\x7b\x7d" :=
  bodyless_placeholder_function_has_no_type sample_is_function_decl_kind
    (fun type => type.spelling) (fun type => type) auto_func_without_return
    auto_func_without_return (by decide) rfl (by decide) (by decide)

/-! ## Compilation flags: the claims -/

/-- A file name without a directory separator makes the first
`file.substr(found, 1)` throw. -/
theorem bare_file_name_throws (env : Environment) (file : String)
    (h : find_last_of file "/\\" = none) :
    parse_compilation_database env file = .error .out_of_range := by
  unfold parse_compilation_database
  simp only [h, substr]
  have h0 : ¬ file.length < 0 := Nat.not_lt_zero _
  simp only [h0, if_false, directory_walk, substr]

/-- C6: for the relative path `a/b/c.cpp` in a world without any
`compile_commands.json`, `parse_compilation_database` returns the empty
argument list, not the default dialect flag; for the absolute path
`/a/b/c.cpp` in the same world it returns the default flag. -/
theorem relative_path_misses_default_flag :
    (∀ path, empty_environment.stream_good path = false) ∧
    parse_compilation_database empty_environment "a/b/c.cpp" = .ok [] ∧
    parse_compilation_database empty_environment "/a/b/c.cpp" = .ok ["-std=c++1y"] := by
  refine ⟨fun _ => rfl, ?_, ?_⟩ <;> decide

/-- C7: with `compile_commands.json` in the filesystem root and no entry for
`/a.cpp` in it, `parse_compilation_database` returns the default dialect flag,
not the empty argument list. -/
theorem root_database_yields_default_flag :
    root_database_environment.stream_good "/compile_commands.json" = true ∧
    (∀ database, root_database_environment.fromDirectory "/" = some database →
      database.getCompileCommands "/a.cpp" = []) ∧
    parse_compilation_database root_database_environment "/a.cpp" =
      .ok ["-std=c++1y"] := by
  refine ⟨by decide, ?_, by decide⟩
  intro database h
  cases h
  rfl

/-- C8: for the bare file name `a.cpp`, in every world, the call of
`get_compile_commands` ends with `std::out_of_range` instead of returning a
map literal. -/
theorem get_compile_commands_throws_on_bare_name (env : Environment) :
    get_compile_commands env "a.cpp" = .error .out_of_range := by
  unfold get_compile_commands
  rw [bare_file_name_throws env "a.cpp" (by decide)]

/-! ## Qualified names: the claims -/

theorem enclosing_function_walk_nest (is_function_decl_kind : CXCursorKind → Bool)
    (func : SemanticCursor) (hfunc : is_function_decl_kind func.kind = true) :
    ∀ (inner : List (CXCursorKind × String)) (fuel : Nat),
      (∀ x ∈ inner, is_function_decl_kind x.1 = false ∧ x.1 ≠ .TranslationUnit) →
      inner.length < fuel →
      enclosing_function_walk is_function_decl_kind fuel (nest_in inner func) = some func := by
  intro inner
  induction inner with
  | nil =>
    intro fuel _ hfuel
    cases fuel with
    | zero => omega
    | succ n => simp [enclosing_function_walk, nest_in, hfunc]
  | cons x rest ih =>
    intro fuel hin hfuel
    obtain ⟨kind, name⟩ := x
    cases fuel with
    | zero => omega
    | succ n =>
      have hx := hin (kind, name) (List.mem_cons_self _ _)
      have hrest := ih n (fun y hy => hin y (List.mem_cons_of_mem _ hy))
        (by simpa using hfuel)
      simp only [enclosing_function_walk, nest_in, SemanticCursor.kind,
        SemanticCursor.semantic_parent]
      simp only at hx
      have hk : (kind == CXCursorKind.TranslationUnit) = false := by
        simpa using hx.2
      simp only [hx.1, hk, Bool.or_self, Bool.false_eq_true, if_false]
      exact hrest

theorem scope_name_node (kind : CXCursorKind) (name : String) (parent : SemanticCursor) :
    scope_name (.node kind name parent) = name_component name := rfl

theorem push_scope_names_nest (root : SemanticCursor)
    (hroot : root.kind = .TranslationUnit) :
    ∀ (scopes : List (CXCursorKind × String)) (kind : CXCursorKind) (name : String)
      (stack : List String) (fuel : Nat),
      (∀ x ∈ scopes, x.1 ≠ .TranslationUnit) →
      scopes.length < fuel →
      push_scope_names fuel (.node kind name (nest_in scopes root)) stack =
        some ((scopes.map (fun x => name_component x.2)).reverse ++
          name_component name :: stack) := by
  intro scopes
  induction scopes with
  | nil =>
    intro kind name stack fuel _ hfuel
    cases fuel with
    | zero => omega
    | succ n =>
      simp [push_scope_names, nest_in, SemanticCursor.semantic_parent, hroot, scope_name,
        name_component, SemanticCursor.spelling]
  | cons x rest ih =>
    intro kind name stack fuel hin hfuel
    obtain ⟨kind1, name1⟩ := x
    cases fuel with
    | zero => omega
    | succ n =>
      have hx := hin (kind1, name1) (List.mem_cons_self _ _)
      have hrest := ih kind1 name1 (name_component name :: stack) n
        (fun y hy => hin y (List.mem_cons_of_mem _ hy)) (by simpa using hfuel)
      simp only at hx
      have hk : (kind1 == CXCursorKind.TranslationUnit) = false := by
        simpa using hx
      simp only [push_scope_names, scope_name_node, nest_in, SemanticCursor.semantic_parent,
        SemanticCursor.kind, hk, Bool.false_eq_true, if_false]
      rw [hrest]
      simp

theorem pop_scope_names_rest (ss : String) :
    ∀ (stack : List String) (acc : String),
      pop_scope_names stack false (ss ++ acc) = ss ++ String.intercalate.go acc "::" stack := by
  intro stack
  induction stack with
  | nil => intro acc; rfl
  | cons top rest ih =>
    intro acc
    simp only [pop_scope_names, Bool.false_eq_true, if_false, String.intercalate.go]
    rw [← ih (acc ++ "::" ++ top)]
    simp only [String.append_assoc]

theorem pop_scope_names_eq (stack : List String) (ss : String) :
    pop_scope_names stack true ss = ss ++ "::".intercalate stack := by
  cases stack with
  | nil => simp [pop_scope_names, String.intercalate]
  | cons top rest =>
    simp only [pop_scope_names, if_true, String.intercalate]
    exact pop_scope_names_rest ss rest top

theorem name_component_ne_empty (name : String) : name_component name ≠ "" := by
  unfold name_component
  split
  · decide
  · rename_i h
    intro he
    rw [he] at h
    exact h (by decide)

theorem find_last_from_bounds (p : Char → Bool) :
    ∀ (l : List Char) (i j : Nat), find_last_from p l i = some j →
      i ≤ j ∧ j < i + l.length := by
  intro l
  induction l with
  | nil => intro i j h; simp [find_last_from] at h
  | cons c cs ih =>
    intro i j h
    simp only [find_last_from] at h
    split at h
    · rename_i k hk
      cases h
      have := ih (i + 1) j hk
      simp only [List.length_cons]
      omega
    · split at h
      · cases h
        simp only [List.length_cons]
        omega
      · cases h

/-- The loop of `parse_compilation_database` stays within its bound: each
iteration cuts `directory` at a separator inside it. -/
theorem directory_walk_terminates (stream_good : String → Bool) (file : String) :
    ∀ (fuel : Nat) (directory : String) (found : Option Nat) (probed : List String),
      directory.length < fuel →
      directory_walk stream_good file fuel directory found probed ≠ .error .diverged := by
  intro fuel
  induction fuel with
  | zero => intro directory found probed h; omega
  | succ n ih =>
    intro directory found probed h
    simp only [directory_walk]
    split
    · rename_i e he
      intro hd
      cases hd
      unfold substr at he
      split at he
      · cases he
      · split at he
        · cases he
        · cases he
    · split
      · intro hd; cases hd
      · split
        · intro hd; cases hd
        · rename_i found1 hfound
          have hb := find_last_from_bounds _ _ _ _ hfound
          have hlen : directory.length = directory.data.length := rfl
          have h0 : ¬ directory.length < 0 := Nat.not_lt_zero _
          simp only [substr, h0, if_false, List.drop_zero]
          apply ih
          show (List.take found1 directory.data).length < n
          rw [List.length_take]
          omega

/-- C9: when the position resolves to a cursor that lies in (or is) a
function-like declaration named `f` whose semantic parents up to the
translation unit are the scopes `scopes` (outermost first), and `fuel` bounds
no loop, `get_current_function_at` renders the names of the scopes and of `f`,
outermost first, joined by "::", each empty name replaced by
"(anonymous namespace)"; no rendered component is empty. -/
theorem qualified_name_outermost_first
    (is_function_decl_kind : CXCursorKind → Bool) (tu : CXTranslationUnit)
    (line column : Nat) (inner scopes : List (CXCursorKind × String))
    (kind : CXCursorKind) (f : String) (root : SemanticCursor) (fuel : Nat)
    (hroot : root.kind = .TranslationUnit)
    (hinner : ∀ x ∈ inner, is_function_decl_kind x.1 = false ∧ x.1 ≠ .TranslationUnit)
    (hkind : is_function_decl_kind kind = true)
    (hnotroot : kind ≠ .TranslationUnit)
    (hscopes : ∀ x ∈ scopes, x.1 ≠ .TranslationUnit)
    (hresolve : resolve_cursor tu line column =
      nest_in inner (.node kind f (nest_in scopes.reverse root)))
    (hfuel : inner.length + scopes.length + 1 ≤ fuel) :
    get_current_function_at is_function_decl_kind fuel (some tu) line column =
      some ("\x7b'name':'" ++
        "::".intercalate ((scopes.map Prod.snd ++ [f]).map name_component) ++ "'\x7d") ∧
    ∀ component ∈ (scopes.map Prod.snd ++ [f]).map name_component, component ≠ "" := by
  constructor
  · have hwalk := enclosing_function_walk_nest is_function_decl_kind
      (.node kind f (nest_in scopes.reverse root)) hkind inner fuel hinner (by omega)
    have hpush := push_scope_names_nest root hroot scopes.reverse kind f [] fuel
      (fun x hx => hscopes x (List.mem_reverse.1 hx)) (by simp; omega)
    have hk : (kind != CXCursorKind.TranslationUnit) = true := by simpa using hnotroot
    unfold get_current_function_at
    simp only [hresolve, hwalk, SemanticCursor.kind, hk, if_true, hpush,
      pop_scope_names_eq]
    congr 3
    simp [List.map_reverse, Function.comp_def]
  · intro component hmem
    obtain ⟨name, -, rfl⟩ := List.mem_map.1 hmem
    exact name_component_ne_empty name

/-- C9 at a statement inside function `f`, itself in an anonymous namespace
that lies inside `N`: the rendered name is `N::(anonymous namespace)::f`. -/
theorem qualified_name_outermost_first_witness :
    get_current_function_at sample_is_function_decl_kind 4
        (some anonymous_namespace_unit) 3 7 =
      some "\x7b'name':'N::(anonymous namespace)::f'\x7d" :=
  (qualified_name_outermost_first sample_is_function_decl_kind anonymous_namespace_unit
    3 7 [(.Other 202, "")] [(.Namespace, "N"), (.Namespace, "")] .FunctionDecl "f"
    (.node .TranslationUnit "a.cpp" .null) 4 rfl (by decide) rfl (by decide) (by decide)
    rfl (by decide)).1.trans (by decide)

theorem enclosing_function_walk_null (is_function_decl_kind : CXCursorKind → Bool)
    (h : is_function_decl_kind .InvalidFile = false) :
    ∀ fuel, enclosing_function_walk is_function_decl_kind fuel .null = none := by
  intro fuel
  induction fuel with
  | zero => rfl
  | succ n ih =>
    simp only [enclosing_function_walk, SemanticCursor.kind, h,
      SemanticCursor.semantic_parent]
    simpa using ih

/-- C10: at line 1, column 1 of `global_type_ref_unit` the position resolves
to a type reference whose semantic parent is the null cursor; column back-off
stops at column 1, and the upward walk then stays at the null cursor: no
number of iterations lets `get_current_function_at` return. -/
theorem parent_walk_diverges_at_orphan :
    (resolve_cursor global_type_ref_unit 1 1).semantic_parent = .null ∧
    ∀ fuel, get_current_function_at sample_is_function_decl_kind fuel
      (some global_type_ref_unit) 1 1 = none := by
  refine ⟨rfl, ?_⟩
  intro fuel
  have hres : resolve_cursor global_type_ref_unit 1 1 = .node .TypeRef "Foo" .null := rfl
  unfold get_current_function_at
  simp only [hres]
  cases fuel with
  | zero => rfl
  | succ n =>
    have hnull := enclosing_function_walk_null sample_is_function_decl_kind rfl n
    have hstep : enclosing_function_walk sample_is_function_decl_kind (n + 1)
        (.node .TypeRef "Foo" .null) =
        enclosing_function_walk sample_is_function_decl_kind n .null := rfl
    rw [hstep, hnull]

/-! ## Facts about the directory walk -/

theorem contains_separator (c : Char) :
    "/\\".data.contains c = is_separator c := by
  have h : "/\\".data = ['/', '\\'] := rfl
  rw [h]
  simp only [is_separator, List.contains, List.elem]
  generalize (c == '/') = a
  generalize (c == '\\') = b
  cases a <;> cases b <;> rfl

theorem find_last_from_none (p : Char → Bool) (d : Char) :
    ∀ (l : List Char) (s : Nat), find_last_from p l s = none →
      ∀ k, k < l.length → p (l.getD k d) = false := by
  intro l
  induction l with
  | nil => intro s _ k hk; simp at hk
  | cons c cs ih =>
    intro s h k hk
    simp only [find_last_from] at h
    split at h
    · cases h
    · rename_i hrest
      split at h
      · cases h
      · rename_i hc
        cases k with
        | zero => simpa using hc
        | succ n =>
          simp only [List.getD_cons_succ]
          exact ih (s + 1) hrest n (by simpa using hk)

theorem find_last_from_some (p : Char → Bool) (d : Char) :
    ∀ (l : List Char) (s j : Nat), find_last_from p l s = some j →
      p (l.getD (j - s) d) = true ∧
      ∀ k, j - s < k → k < l.length → p (l.getD k d) = false := by
  intro l
  induction l with
  | nil => intro s j h; simp [find_last_from] at h
  | cons c cs ih =>
    intro s j h
    simp only [find_last_from] at h
    split at h
    · rename_i j1 hrest
      cases h
      have hb := find_last_from_bounds p cs (s + 1) j hrest
      obtain ⟨hp, hmax⟩ := ih (s + 1) j hrest
      have e : j - s = (j - (s + 1)) + 1 := by omega
      rw [e]
      refine ⟨by simpa using hp, ?_⟩
      intro k hk hlen
      cases k with
      | zero => omega
      | succ n =>
        simp only [List.getD_cons_succ]
        exact hmax n (by omega) (by simpa using hlen)
    · rename_i hrest
      split at h
      · rename_i hc
        cases h
        refine ⟨by simpa using hc, ?_⟩
        intro k hk hlen
        cases k with
        | zero => omega
        | succ n =>
          simp only [List.getD_cons_succ]
          exact find_last_from_none p d cs _ hrest n (by simpa using hlen)
      · cases h

theorem find_last_of_none {s : String} (h : find_last_of s "/\\" = none) :
    ∀ k, k < s.length → is_separator (char_at s k) = false := by
  intro k hk
  have := find_last_from_none _ (Char.ofNat 0) _ _ h k hk
  exact (contains_separator _).symm.trans this

theorem find_last_of_some {s : String} {j : Nat} (h : find_last_of s "/\\" = some j) :
    j < s.length ∧ is_separator (char_at s j) = true ∧
      ∀ k, j < k → k < s.length → is_separator (char_at s k) = false := by
  have hb := find_last_from_bounds _ _ _ _ h
  obtain ⟨hp, hmax⟩ := find_last_from_some _ (Char.ofNat 0) _ _ _ h
  have hlen : s.length = s.data.length := rfl
  refine ⟨by omega, (contains_separator _).symm.trans hp, ?_⟩
  intro k hjk hk
  exact (contains_separator _).symm.trans (hmax k (by omega) hk)

theorem separators_below_skip (file : String) (a : Nat) :
    ∀ b, a ≤ b → (∀ k, a ≤ k → k < b → is_separator (char_at file k) = false) →
      separators_below file b = separators_below file a := by
  intro b
  induction b with
  | zero => intro hab _; have : a = 0 := by omega
            subst this; rfl
  | succ n ih =>
    intro hab hno
    by_cases hn : a = n + 1
    · rw [hn]
    · have hn1 : a ≤ n := by omega
      have := hno n hn1 (by omega)
      simp only [separators_below, this, Bool.false_eq_true, if_false]
      exact ih hn1 (fun k hk hkn => hno k hk (by omega))

theorem mem_separators_below (file : String) :
    ∀ n i, i ∈ separators_below file n ↔ i < n ∧ is_separator (char_at file i) = true := by
  intro n
  induction n with
  | zero => intro i; simp [separators_below]
  | succ n ih =>
    intro i
    simp only [separators_below]
    split
    · rename_i hs
      simp only [List.mem_cons, ih]
      constructor
      · rintro (rfl | ⟨h1, h2⟩)
        · exact ⟨by omega, hs⟩
        · exact ⟨by omega, h2⟩
      · rintro ⟨h1, h2⟩
        by_cases hi : i = n
        · exact Or.inl hi
        · exact Or.inr ⟨by omega, h2⟩
    · rename_i hs
      rw [ih]
      constructor
      · rintro ⟨h1, h2⟩; exact ⟨by omega, h2⟩
      · rintro ⟨h1, h2⟩
        by_cases hi : i = n
        · rw [hi] at h2; exact absurd h2 hs
        · exact ⟨by omega, h2⟩

/-- The separator positions are exactly the positions of `file` that hold a
slash or a backslash. -/
theorem mem_separator_positions (file : String) (i : Nat) :
    i ∈ separator_positions file ↔
      i < file.length ∧ is_separator (char_at file i) = true :=
  mem_separators_below file file.length i

theorem separators_below_descending (file : String) :
    ∀ n, (separators_below file n).Pairwise (fun a b => b < a) := by
  intro n
  induction n with
  | zero => simp [separators_below]
  | succ n ih =>
    simp only [separators_below]
    split
    · refine List.Pairwise.cons ?_ ih
      intro b hb
      exact ((mem_separators_below file n b).1 hb).1
    · exact ih

theorem char_at_of_take (file : String) (i k : Nat) (hk : k < i) :
    char_at ⟨file.data.take i⟩ k = char_at file k := by
  simp only [char_at, List.getD_eq_getElem?_getD, List.getElem?_take, hk, if_true]

theorem length_of_take (file : String) (i : Nat) (hi : i ≤ file.length) :
    (String.mk (file.data.take i)).length = i := by
  have hlen : file.length = file.data.length := rfl
  show (file.data.take i).length = i
  rw [List.length_take]
  omega

theorem find_last_of_prefix_none (file : String) (i : Nat) (hi : i ≤ file.length)
    (h : find_last_of ⟨file.data.take i⟩ "/\\" = none) :
    separators_below file i = [] := by
  have hnone := find_last_of_none h
  rw [length_of_take file i hi] at hnone
  have := separators_below_skip file 0 i (Nat.zero_le _)
    (fun k _ hk => by rw [← char_at_of_take file i k hk]; exact hnone k hk)
  rw [this]; rfl

theorem find_last_of_prefix_some (file : String) (i j : Nat) (hi : i ≤ file.length)
    (h : find_last_of ⟨file.data.take i⟩ "/\\" = some j) :
    j < i ∧ is_separator (char_at file j) = true ∧
      separators_below file i = j :: separators_below file j := by
  obtain ⟨hj, hsep, hmax⟩ := find_last_of_some h
  rw [length_of_take file i hi] at hj hmax
  rw [char_at_of_take file i j hj] at hsep
  refine ⟨hj, hsep, ?_⟩
  have := separators_below_skip file (j + 1) i (by omega)
    (fun k hk hki => by rw [← char_at_of_take file i k hki]; exact hmax k (by omega) hki)
  rw [this]
  simp only [separators_below, hsep, if_true]

theorem directory_walk_step (stream_good : String → Bool) (file : String)
    (n i : Nat) (acc : List String) (hi : i < file.length) :
    directory_walk stream_good file (n + 1) (ancestor_directory file i) (some i) acc =
      if stream_good (probe_path file i) then
        .ok (ancestor_directory file i, acc ++ [probe_path file i])
      else
        match find_last_of (ancestor_directory file i) "/\\" with
        | none => .ok (ancestor_directory file i, acc ++ [probe_path file i])
        | some found1 =>
          directory_walk stream_good file n
            ⟨(ancestor_directory file i).data.take found1⟩ (some found1)
            (acc ++ [probe_path file i]) := by
  have h1 : ¬ file.length < i := by omega
  have h0 : ∀ s : String, ¬ s.length < 0 := fun s => Nat.not_lt_zero _
  simp only [directory_walk, substr, h1, h0, if_false, List.drop_zero]
  rfl

theorem separators_below_filter_nil (file : String) (i j : Nat) (hij : i ≤ j) :
    (separators_below file i).filter (fun k => decide (j ≤ k)) = [] := by
  rw [List.filter_eq_nil_iff]
  intro k hk
  have := ((mem_separators_below file i k).1 hk).1
  simp only [decide_eq_true_eq]
  omega

theorem directory_walk_from (stream_good : String → Bool) (file : String) :
    ∀ (fuel i : Nat) (acc : List String), i < file.length →
      is_separator (char_at file i) = true → i < fuel →
      ∃ j, j ∈ separators_below file (i + 1) ∧
        directory_walk stream_good file fuel (ancestor_directory file i) (some i) acc =
          .ok (ancestor_directory file j,
            acc ++ ((separators_below file (i + 1)).filter
              (fun k => decide (j ≤ k))).map (probe_path file)) ∧
        (∀ k ∈ separators_below file (i + 1), j < k →
          stream_good (probe_path file k) = false) ∧
        (stream_good (probe_path file j) = true ∨
          ∀ k ∈ separators_below file (i + 1), j ≤ k) := by
  intro fuel
  induction fuel with
  | zero => intro i acc _ _ h; omega
  | succ n ih =>
    intro i acc hi hsep hfuel
    have hsb : separators_below file (i + 1) = i :: separators_below file i := by
      simp only [separators_below, hsep, if_true]
    have hstop : (separators_below file (i + 1)).filter (fun k => decide (i ≤ k)) = [i] := by
      rw [hsb, List.filter_cons_of_pos (by simp), separators_below_filter_nil file i i (le_refl _)]
    rw [directory_walk_step stream_good file n i acc hi]
    by_cases hg : stream_good (probe_path file i) = true
    · refine ⟨i, by rw [hsb]; exact List.mem_cons_self _ _, ?_, ?_, Or.inl hg⟩
      · rw [if_pos hg, hstop]; rfl
      · intro k hk hik
        rw [hsb] at hk
        rcases List.mem_cons.1 hk with h | h
        · omega
        · have := ((mem_separators_below file i k).1 h).1
          omega
    · rw [if_neg hg]
      have hg2 : stream_good (probe_path file i) = false := by simpa using hg
      cases hf : find_last_of (ancestor_directory file i) "/\\" with
      | none =>
        have hnil := find_last_of_prefix_none file i (by omega) hf
        refine ⟨i, by rw [hsb]; exact List.mem_cons_self _ _, ?_, ?_, Or.inr ?_⟩
        · simp only [hstop]; rfl
        · intro k hk hik
          rw [hsb, hnil] at hk
          rcases List.mem_cons.1 hk with h | h
          · omega
          · cases h
        · intro k hk
          rw [hsb, hnil] at hk
          rcases List.mem_cons.1 hk with h | h
          · omega
          · cases h
      | some found1 =>
        obtain ⟨hlt, hsep1, hsbi⟩ := find_last_of_prefix_some file i found1 (by omega) hf
        have hsb1 : separators_below file (found1 + 1) = separators_below file i := by
          rw [hsbi]; simp only [separators_below, hsep1, if_true]
        have hdir : (String.mk ((ancestor_directory file i).data.take found1)) =
            ancestor_directory file found1 := by
          simp only [ancestor_directory, List.take_take]
          congr 2
          omega
        obtain ⟨j, hj, hwalk, hdeeper, hlast⟩ :=
          ih found1 (acc ++ [probe_path file i]) (by omega) hsep1 (by omega)
        rw [hsb1] at hj hwalk hdeeper hlast
        have hji : j < i := ((mem_separators_below file i j).1 hj).1
        refine ⟨j, by rw [hsb]; exact List.mem_cons_of_mem _ hj, ?_, ?_, ?_⟩
        · simp only [hdir, hwalk]
          rw [hsb, List.filter_cons_of_pos (by simp; omega)]
          simp
        · intro k hk hjk
          rw [hsb] at hk
          rcases List.mem_cons.1 hk with h | h
          · rw [h]; exact hg2
          · exact hdeeper k h hjk
        · rcases hlast with h | h
          · exact Or.inl h
          · right
            intro k hk
            rw [hsb] at hk
            rcases List.mem_cons.1 hk with h1 | h1
            · omega
            · exact h k h1

/-! ## Declarations, completion and the directory walk: the claims -/

/-- C11: when code completion yields a result set without candidates,
`get_completion_at` renders a list literal with one empty quoted element, not
the empty list literal; with candidates it renders one quoted element per
distinct typed text, in ascending order. -/
theorem completion_without_candidates_renders_empty_string :
    (∀ line column, get_completion_at (some no_candidates_unit) line column = "['']") ∧
    get_completion_at (some no_candidates_unit) 1 1 ≠ "[]" ∧
    get_completion_at (some three_candidates_unit) 1 1 = "['begin', 'size']" := by
  refine ⟨fun _ _ => rfl, by decide, by decide⟩

/-- C12: from the declaration statement `auto x = 1;` the search locates the
variable declaration, whose variable deduction gives `int`; but the start
cursor is not a variable declaration, so `deduce_func_or_var_decl` applies the
function deduction to the variable and renders the empty map. -/
theorem deduce_func_or_var_decl_follows_start_kind :
    clang_getCursorKind decl_stmt_with_auto_var ≠ .VarDecl ∧
    (search_kind (fun kind => kind == .VarDecl || sample_is_function_decl_kind kind)
      decl_stmt_with_auto_var).map clang_getCursorKind = some .VarDecl ∧
    (search_kind (fun kind => kind == .VarDecl || sample_is_function_decl_kind kind)
      decl_stmt_with_auto_var).map
        (fun located => render_deduced_type (fun type => type.spelling) (fun type => type)
          (deduce_by_located_kind located)) = some "\x7bint'canonical':\x7bint\x7d,\x7d" ∧
    deduce_func_or_var_decl sample_is_function_decl_kind (fun type => type.spelling)
      (fun type => type) decl_stmt_with_auto_var = "\x7b\x7d" := by
  refine ⟨by decide, by decide, by decide, by decide⟩

/-- C13: for a file path with a directory separator, the directory walk of
`parse_compilation_database` returns. It stops at the ancestor directory
before some separator position `j`, having probed, deepest first, the
ancestor directory of every separator position from the last one (the
containing directory) down to `j`, none left out. No probe of a deeper
directory succeeded, and either the probe at `j` succeeded or `j` is the
outermost ancestor; so when some ancestor holds `compile_commands.json`, the
walk stops at the deepest such ancestor. -/
theorem directory_walk_first_match (stream_good : String → Bool) (file : String)
    (h : separator_positions file ≠ []) :
    (separator_positions file).Pairwise (fun a b => b < a) ∧
    ∃ j, j ∈ separator_positions file ∧
      compilation_database_walk stream_good file =
        .ok (ancestor_directory file j,
          ((separator_positions file).filter (fun k => decide (j ≤ k))).map
            (probe_path file)) ∧
      (∀ k ∈ separator_positions file, j < k → stream_good (probe_path file k) = false) ∧
      (stream_good (probe_path file j) = true ∨ ∀ k ∈ separator_positions file, j ≤ k) ∧
      ((∃ k ∈ separator_positions file, stream_good (probe_path file k) = true) →
        stream_good (probe_path file j) = true) := by
  refine ⟨separators_below_descending file file.length, ?_⟩
  cases hf : find_last_of file "/\\" with
  | none =>
    exfalso
    apply h
    have hnone := find_last_of_none hf
    have := separators_below_skip file 0 file.length (Nat.zero_le _)
      (fun k _ hk => hnone k hk)
    unfold separator_positions
    rw [this]; rfl
  | some i =>
    obtain ⟨hi, hsep, hmax⟩ := find_last_of_some hf
    have hsb : separator_positions file = separators_below file (i + 1) :=
      separators_below_skip file (i + 1) file.length (by omega)
        (fun k hk hkl => hmax k (by omega) hkl)
    obtain ⟨j, hj, hwalk, hdeeper, hlast⟩ :=
      directory_walk_from stream_good file (file.length + 1) i [] hi hsep (by omega)
    rw [← hsb] at hj hwalk hdeeper hlast
    refine ⟨j, hj, ?_, hdeeper, hlast, ?_⟩
    · unfold compilation_database_walk
      have h0 : ¬ file.length < 0 := Nat.not_lt_zero _
      simp only [hf, substr, h0, if_false, List.drop_zero]
      simp only [List.nil_append] at hwalk
      exact hwalk
    · rintro ⟨k, hk, hgood⟩
      rcases hlast with hl | hl
      · exact hl
      · rcases Nat.lt_or_ge j k with hjk | hjk
        · rw [hdeeper k hk hjk] at hgood; cases hgood
        · have : j = k := Nat.le_antisymm (hl k hk) hjk
          rw [this]; exact hgood

/-- C13 at `/a/b/c.cpp` when only `/a/compile_commands.json` exists. -/
theorem directory_walk_first_match_witness :
    separator_positions "/a/b/c.cpp" ≠ [] ∧
    ((separator_positions "/a/b/c.cpp").Pairwise (fun a b => b < a) ∧
    ∃ j, j ∈ separator_positions "/a/b/c.cpp" ∧
      compilation_database_walk database_in_a_environment.stream_good "/a/b/c.cpp" =
        .ok (ancestor_directory "/a/b/c.cpp" j,
          ((separator_positions "/a/b/c.cpp").filter (fun k => decide (j ≤ k))).map
            (probe_path "/a/b/c.cpp")) ∧
      (∀ k ∈ separator_positions "/a/b/c.cpp", j < k →
        database_in_a_environment.stream_good (probe_path "/a/b/c.cpp" k) = false) ∧
      (database_in_a_environment.stream_good (probe_path "/a/b/c.cpp" j) = true ∨
        ∀ k ∈ separator_positions "/a/b/c.cpp", j ≤ k) ∧
      ((∃ k ∈ separator_positions "/a/b/c.cpp",
          database_in_a_environment.stream_good (probe_path "/a/b/c.cpp" k) = true) →
        database_in_a_environment.stream_good (probe_path "/a/b/c.cpp" j) = true)) :=
  ⟨by decide,
   directory_walk_first_match database_in_a_environment.stream_good "/a/b/c.cpp" (by decide)⟩

end LibclangVim
